import Mathlib

/-!
# Verification of the runwell SSA construction core

A shallow embedding of the runwell WebAssembly-to-SSA compiler front-end
(repository `mickare/runwell`), covering the parts of the code that the
checked specification sentences talk about:

* the incomplete φ-instruction helper
  (`src/crates/module/src/func_body/incomplete_phi.rs`),
* the variable translator
  (`src/src/ir/builder/function/variable.rs`),
* the function instruction builder
  (`src/src/ir/builder/instruction.rs`),
* the Wasm operator translator (`src/src/ir/wasm/mod.rs`),
* the binary-integer instruction interpreter
  (`src/src/ir/interpreter/instr.rs`).

Machine integers are embedded as `Nat` with explicit `% 2^w` where the Rust
code truncates or wraps; fallible Rust functions become `Except`-valued
functions; Rust functions that can panic return an `Option` (`none` models
the panic).  Functions taking `&mut self` return the mutated state next to
the `Except` result, so that state changes performed before an early
`return Err(..)` stay observable, exactly as in Rust.
-/

set_option autoImplicit false

namespace Runwell

/-!
## Primitives

From `src/crates/ir/src/primitive.rs` and `src/src/entity/index.rs`.
Entity handles (`Idx<T>`) are 32-bit indices; we embed them as the raw
`Nat` index they carry.
-/

/-- The raw index of an SSA value entity (`Value = Idx<ValueEntity>`). -/
abbrev Value := Nat

/-- The raw index of a basic block entity (`Block = Idx<BlockEntity>`). -/
abbrev Block := Nat

/-- The raw index of an instruction entity (`Instr = Idx<Instruction>`). -/
abbrev Instr := Nat

/-- The raw index of a source-language variable (`Variable`). -/
abbrev Variable := Nat

/-- `IntType`: any fixed-size integer type. -/
inductive IntType
  | i8
  | i16
  | i32
  | i64
  deriving DecidableEq, Repr

/-- `IntType::bit_width`. -/
def IntType.bit_width : IntType → Nat
  | .i8 => 8
  | .i16 => 16
  | .i32 => 32
  | .i64 => 64

/-- `FloatType`: any floating point number type. -/
inductive FloatType
  | f32
  | f64
  deriving DecidableEq, Repr

/-- The Rust enum `Type` of Runwell primitive types (renamed to `Ty`
because `Type` is reserved in Lean). -/
inductive Ty
  | bool
  | ptr
  | int (ty : IntType)
  | float (ty : FloatType)
  deriving DecidableEq, Repr

/-!
## Errors

From the builder error enums (`FunctionBuilderError`, `IrError`) used in
`src/src/ir/builder/instruction.rs` and
`src/src/ir/builder/function/variable.rs`, and the Wasm translator error
(`WasmError`, its source file `src/src/ir/wasm/error.rs` is not part of the
sources; the spec lists its cases).
-/

/-- The kind of access to a variable, used in
`FunctionBuilderError::MissingDeclarationForVariable`. -/
inductive VariableAccess
  | Read
  | Write (value : Value)
  deriving DecidableEq, Repr

/-- The function builder error enum (the variants exercised by the claims). -/
inductive FunctionBuilderError
  | UnmatchingVariableType (variable_ : Variable) (value : Value)
      (declared_type : Ty) (value_type : Ty)
  | MissingDeclarationForVariable (variable_ : Variable) (access : VariableAccess)
  | ReadBeforeWriteVariable (variable_ : Variable)
  | TooManyVariableDeclarations
  | UnreachablePhi (value : Value)
  | UnfilledPredecessor (block : Block) (unfilled_pred : Block)
  | PredecessorForSealedBlock (sealed_block : Block) (new_pred : Block)
  | BranchAlreadyExists (from_ : Block) (to_ : Block)
  | BlockAlreadyFilled (block : Block)
  deriving DecidableEq, Repr

/-- Modelled from the spec: `WasmError { kind }` covers translator-side
issues — stack underflow (`pop` on empty), unsupported opcode and type
mismatch (its source file `src/src/ir/wasm/error.rs` is missing from the
sources). -/
inductive WasmError
  | StackUnderflow
  | UnsupportedOperator
  | TypeMismatch
  deriving DecidableEq, Repr

/-- The boundary error sum `IrError`. -/
inductive IrError
  | FunctionBuilder (err : FunctionBuilderError)
  | Wasm (err : WasmError)
  deriving DecidableEq, Repr

/-!
## Incomplete φ-instructions

From `src/crates/module/src/func_body/incomplete_phi.rs`.  The
`operands: BTreeMap<Block, Value>` is embedded as the association list of
its entries in ascending block order (iteration order of the `BTreeMap`).
-/

/-- An incomplete φ-instruction during function body construction. -/
structure IncompletePhi where
  operands : List (Block × Value)
  deriving DecidableEq, Repr

/-- The iteration performed by `IncompletePhi::replace_value`: the Rust
source maps the replacing closure over `operands.iter_mut()` and combines
the produced flags with `.any(identity)`.  Both `map` and `any` are lazy
iterator adapters and `any` short-circuits at the first `true`, so
operands after the first replaced occurrence are never visited. -/
def replace_value_go (replaceValue withValue : Value) :
    List (Block × Value) → List (Block × Value) × Bool
  | [] => ([], false)
  | (block, value) :: rest =>
    if value = replaceValue then
      ((block, withValue) :: rest, true)
    else
      let (rest', changed) := replace_value_go replaceValue withValue rest
      ((block, value) :: rest', changed)

/-- `IncompletePhi::replace_value(replace_value, with_value)`. -/
def IncompletePhi.replace_value (phi : IncompletePhi)
    (replaceValue withValue : Value) : IncompletePhi × Bool :=
  let (ops, changed) := replace_value_go replaceValue withValue phi.operands
  (⟨ops⟩, changed)

/-- The operand scan of `IncompletePhi::is_trivial`, with `same` the
running unique non-self operand (`let mut same: Option<Value> = None`). -/
def is_trivial_go (phi_value : Value) :
    List (Block × Value) → Option Value →
      Except FunctionBuilderError (Option Value)
  | [], same =>
    match same with
    | none => .error (.UnreachablePhi phi_value)
    | some v => .ok (some v)
  | (_block, op) :: rest, same =>
    if some op = same ∨ op = phi_value then
      -- Unique value or self reference.
      is_trivial_go phi_value rest same
    else if same.isSome then
      -- The phi merges at least two values: not trivial
      .ok none
    else
      is_trivial_go phi_value rest (some op)

/-- `IncompletePhi::is_trivial(phi_value)`. -/
def IncompletePhi.is_trivial (phi : IncompletePhi) (phi_value : Value) :
    Except FunctionBuilderError (Option Value) :=
  is_trivial_go phi_value phi.operands none

/-- The list of operand values of `phi` that differ from the φ's own value
(the "non-self" operands the spec speaks about). -/
def non_self_operands (phi : IncompletePhi) (phi_value : Value) : List Value :=
  (phi.operands.map Prod.snd).filter (fun v => v != phi_value)

theorem is_trivial_go_some (phi_value : Value) (u : Value) (hu : u ≠ phi_value) :
    ∀ ops : List (Block × Value),
      is_trivial_go phi_value ops (some u) =
        if ((ops.map Prod.snd).filter (fun v => v != phi_value)).any
            (fun w => w != u) then
          Except.ok none
        else
          Except.ok (some u) := by
  intro ops
  induction ops with
  | nil => simp [is_trivial_go]
  | cons hd tl ih =>
    obtain ⟨b, op⟩ := hd
    by_cases hop : op = u
    · subst hop
      have h1 : is_trivial_go phi_value ((b, op) :: tl) (some op) =
          is_trivial_go phi_value tl (some op) := by
        simp [is_trivial_go]
      rw [h1, ih, List.map_cons, List.filter_cons,
        if_pos (show (op != phi_value) = true from by simp [hu]),
        List.any_cons]
      simp only [bne_self_eq_false, Bool.false_or]
    · by_cases hphi : op = phi_value
      · subst hphi
        have h1 : is_trivial_go op ((b, op) :: tl) (some u) =
            is_trivial_go op tl (some u) := by
          simp [is_trivial_go]
        rw [h1, ih, List.map_cons, List.filter_cons,
          if_neg (show ¬ ((op != op) = true) from by simp)]
      · have h1 : is_trivial_go phi_value ((b, op) :: tl) (some u) =
            Except.ok none := by
          simp [is_trivial_go, hop, hphi]
        have h2 : (op != phi_value) = true := by simp [hphi]
        have h3 : (op != u) = true := by simp [hop]
        rw [h1, List.map_cons, List.filter_cons, if_pos h2, List.any_cons, h3]
        simp only [Bool.true_or, if_true, eq_self_iff_true]

theorem is_trivial_go_none (phi_value : Value) :
    ∀ ops : List (Block × Value),
      is_trivial_go phi_value ops none =
        match (ops.map Prod.snd).filter (fun v => v != phi_value) with
        | [] => Except.error (.UnreachablePhi phi_value)
        | v :: rest =>
          if rest.any (fun w => w != v) then Except.ok none
          else Except.ok (some v) := by
  intro ops
  induction ops with
  | nil => simp [is_trivial_go]
  | cons hd tl ih =>
    obtain ⟨b, op⟩ := hd
    by_cases hphi : op = phi_value
    · subst hphi
      have h1 : is_trivial_go op ((b, op) :: tl) none =
          is_trivial_go op tl none := by
        simp [is_trivial_go]
      rw [h1, ih, List.map_cons, List.filter_cons,
        if_neg (show ¬ ((op != op) = true) from by simp)]
    · have h1 : is_trivial_go phi_value ((b, op) :: tl) none =
          is_trivial_go phi_value tl (some op) := by
        simp [is_trivial_go, hphi]
      rw [h1, is_trivial_go_some phi_value op hphi tl, List.map_cons,
        List.filter_cons, if_pos (show (op != phi_value) = true from by simp [hphi])]

/-- C7: `IncompletePhi::is_trivial`, given the φ's own result value, returns
the unique remaining operand value when, after discarding operands equal to
the φ's own value, exactly one distinct operand value remains; returns no
replacement (`Ok(None)`) when two or more distinct non-self operand values
exist; and returns the `UnreachablePhi` error exactly when no non-self
operand exists (including the empty operand map). -/
theorem claim_C7_is_trivial (phi : IncompletePhi) (phi_value : Value) :
    (phi.is_trivial phi_value = Except.error (.UnreachablePhi phi_value) ↔
      non_self_operands phi phi_value = [])
    ∧ (∀ v : Value,
        phi.is_trivial phi_value = Except.ok (some v) ↔
          non_self_operands phi phi_value ≠ [] ∧
            ∀ w ∈ non_self_operands phi phi_value, w = v)
    ∧ (phi.is_trivial phi_value = Except.ok none ↔
        ∃ v ∈ non_self_operands phi phi_value,
          ∃ w ∈ non_self_operands phi phi_value, v ≠ w) := by
  have hval : phi.is_trivial phi_value = is_trivial_go phi_value phi.operands none := rfl
  have hns : non_self_operands phi phi_value =
      (phi.operands.map Prod.snd).filter (fun v => v != phi_value) := rfl
  cases hL : (phi.operands.map Prod.snd).filter (fun v => v != phi_value) with
  | nil =>
    have hres : is_trivial_go phi_value phi.operands none =
        Except.error (.UnreachablePhi phi_value) := by
      rw [is_trivial_go_none phi_value phi.operands, hL]
    rw [hval, hres, hns, hL]
    simp
  | cons v0 rest =>
    have hres : is_trivial_go phi_value phi.operands none =
        if rest.any (fun w => w != v0) then Except.ok none
        else Except.ok (some v0) := by
      rw [is_trivial_go_none phi_value phi.operands, hL]
    rw [hval, hres, hns, hL]
    by_cases hany : rest.any (fun w => w != v0) = true
    · obtain ⟨w, hw, hwne⟩ := List.any_eq_true.mp hany
      have hwv0 : w ≠ v0 := by simpa using hwne
      rw [if_pos hany]
      refine ⟨by simp, fun v => ?_, ?_⟩
      · simp only [List.mem_cons]
        constructor
        · intro hco
          exact absurd hco (by simp)
        · rintro ⟨-, hall⟩
          have h1 : v0 = v := hall v0 (Or.inl rfl)
          have h2 : w = v := hall w (Or.inr hw)
          exact absurd (h2.trans h1.symm) hwv0
      · simp only [List.mem_cons]
        constructor
        · intro _
          exact ⟨v0, Or.inl rfl, w, Or.inr hw, fun hh => hwv0 hh.symm⟩
        · intro _
          trivial
    · have hall : ∀ w ∈ rest, w = v0 := by
        intro w hw
        by_contra hne
        exact hany (List.any_eq_true.mpr ⟨w, hw, by simpa using hne⟩)
      rw [if_neg hany]
      refine ⟨by simp, fun v => ?_, ?_⟩
      · simp only [List.mem_cons]
        constructor
        · intro hok
          have hv : v0 = v := by
            simpa using hok
          subst hv
          refine ⟨by simp, ?_⟩
          rintro w (rfl | hw)
          · rfl
          · exact hall w hw
        · rintro ⟨-, hall'⟩
          have : v0 = v := hall' v0 (Or.inl rfl)
          simp [this]
      · simp only [List.mem_cons]
        constructor
        · intro hco
          exact absurd hco (by simp)
        · rintro ⟨v, hv, w, hw, hvw⟩
          have hv' : v = v0 := by
            rcases hv with rfl | hv
            · rfl
            · exact hall v hv
          have hw' : w = v0 := by
            rcases hw with rfl | hw
            · rfl
            · exact hall w hw
          exact absurd (hv'.trans hw'.symm) hvw

/-- C2: evaluating `IncompletePhi::replace_value` at a φ whose two distinct
predecessor blocks `bb0` and `bb1` both map to the old value `v5`:
replacing `v5` by `v7` returns `true`, but only the operand of `bb0` is
rewritten — the operand of `bb1` still equals the old value `v5`, so not
every occurrence of the old value is replaced. -/
theorem claim_C2_replace_value_keeps_second_occurrence :
    (IncompletePhi.mk [(0, 5), (1, 5)]).replace_value 5 7 =
      (IncompletePhi.mk [(0, 7), (1, 5)], true) ∧
    (5 : Value) ≠ 7 ∧
    ∃ p ∈ ((IncompletePhi.mk [(0, 5), (1, 5)]).replace_value 5 7).1.operands,
      p.2 = 5 := by
  decide

/-!
## The variable translator

From `src/src/ir/builder/function/variable.rs`.  The two hash maps
(`var_to_defs: HashMap<Variable, VariableDefs>` and the per-variable
`defs: HashMap<BasicBlockId, Value>`) are embedded as association lists
without duplicate keys (`assoc_insert` replaces the existing entry, like
`HashMap::insert`).
-/

/-- `HashMap::insert`: replaces the value of an existing key, otherwise
adds the binding. -/
def assoc_insert {β : Type} (l : List (Nat × β)) (k : Nat) (v : β) :
    List (Nat × β) :=
  match l with
  | [] => [(k, v)]
  | (k', v') :: rest =>
    if k' = k then (k, v) :: rest else (k', v') :: assoc_insert rest k v

/-- The size-halving loop of Rust `<[T]>::binary_search_by`
(`while left < right { let mid = left + size / 2; ... }`), with
`Except.ok i` for `Ok(i)` (comparator returned `Equal` at `i`) and
`Except.error i` for `Err(i)` (the insertion point).  The loop shrinks
`right - left` by at least one per iteration, so `fuel` at least
`arr.length + 1` makes the fuel bound unreachable; it only exists to keep
the recursion structural. -/
def binary_search_go {α : Type} (arr : List α) (dflt : α) (f : α → Ordering) :
    Nat → Nat → Nat → Except Nat Nat
  | _left, _right, 0 => .error _left
  | left, right, fuel + 1 =>
    if left < right then
      let size := right - left
      let mid := left + size / 2
      match f (arr.getD mid dflt) with
      | .lt => binary_search_go arr dflt f (mid + 1) right fuel
      | .gt => binary_search_go arr dflt f left mid fuel
      | .eq => .ok mid
    else
      .error left

/-- Rust `slice::binary_search_by(f)`. -/
def rust_binary_search_by {α : Type} (arr : List α) (dflt : α)
    (f : α → Ordering) : Except Nat Nat :=
  binary_search_go arr dflt f 0 arr.length (arr.length + 1)

/-- `VariableDecl`: a run of adjacent variable declarations sharing a type. -/
structure VariableDecl where
  offset : Nat
  ty : Ty
  deriving DecidableEq, Repr

/-- `VariableDefs`: per-block definitions and declared type of a variable. -/
structure VariableDefs where
  defs : List (Block × Value)
  ty : Ty
  deriving DecidableEq, Repr

/-- `VariableDefs::new`: a fresh entry with an empty definitions map. -/
def VariableDefs.new (ty : Ty) : VariableDefs :=
  ⟨[], ty⟩

/-- `VariableTranslator`: declaration runs and lazily initialized
per-variable definitions. `len_vars` is a `u32`. -/
structure VariableTranslator where
  len_vars : Nat
  var_to_type : List VariableDecl
  var_to_defs : List (Variable × VariableDefs)
  deriving DecidableEq, Repr

/-- `u32::MAX`. -/
def u32MAX : Nat := 2 ^ 32 - 1

/-- `VariableTranslator::is_declared`. -/
def VariableTranslator.is_declared (s : VariableTranslator) (var : Variable) :
    Bool :=
  var < s.len_vars

/-- `VariableTranslator::ensure_declared`. -/
def VariableTranslator.ensure_declared (s : VariableTranslator)
    (var : Variable) (access : VariableAccess) : Except IrError Unit :=
  if s.is_declared var then
    .ok ()
  else
    .error (.FunctionBuilder (.MissingDeclarationForVariable var access))

/-- `VariableTranslator::ensure_types_match`. -/
def ensure_types_match (var : Variable) (new_value : Value)
    (declared_type : Ty) (value_to_type : Value → Ty) : Except IrError Unit :=
  let value_type := value_to_type new_value
  if declared_type ≠ value_type then
    .error (.FunctionBuilder
      (.UnmatchingVariableType var new_value declared_type value_type))
  else
    .ok ()

/-- `VariableTranslator::declare_vars(amount, ty)`.  The Rust source first
performs `self.len_vars += amount` (a `u32` addition, wrapping at `2^32`),
then errors if the new total reached `u32::MAX`, and only then pushes the
declaration run; on `amount == 1` it also pre-initializes the definitions
entry of the single declared variable.  The mutated state is returned next
to the result, as for every `&mut self` method. -/
def VariableTranslator.declare_vars (s : VariableTranslator) (amount : Nat)
    (ty : Ty) : Except IrError Unit × VariableTranslator :=
  let offset := s.len_vars
  let len' := (s.len_vars + amount) % 2 ^ 32
  let s1 : VariableTranslator := { s with len_vars := len' }
  if len' ≥ u32MAX then
    (.error (.FunctionBuilder .TooManyVariableDeclarations), s1)
  else
    let s2 : VariableTranslator :=
      { s1 with var_to_type := s1.var_to_type ++ [⟨offset, ty⟩] }
    let s3 : VariableTranslator :=
      if amount = 1 then
        { s2 with
          var_to_defs :=
            assoc_insert s2.var_to_defs offset (VariableDefs.new ty) }
      else
        s2
    (.ok (), s3)

/-- `VariableTranslator::write_var(var, new_value, block, value_to_type)`.
The `Occupied` arm checks the type and inserts `(block, new_value)` into the
existing definitions; the `Vacant` arm resolves the declared type with
`var_to_type.binary_search_by(|decl| target.cmp(&decl.offset))`, checks the
type, and inserts `VariableDefs::new(declared_type)` for the variable.
`none` models a Rust panic (`var_to_type[index - 1]` with `index == 0`
underflows the `usize` index). -/
def VariableTranslator.write_var (s : VariableTranslator) (var : Variable)
    (new_value : Value) (block : Block) (value_to_type : Value → Ty) :
    Option (Except IrError Unit × VariableTranslator) :=
  match s.ensure_declared var (.Write new_value) with
  | .error e => some (.error e, s)
  | .ok () =>
    match List.lookup var s.var_to_defs with
    | some occupied =>
      -- Variable has already been defined previously.
      match ensure_types_match var new_value occupied.ty value_to_type with
      | .error e => some (.error e, s)
      | .ok () =>
        some (.ok (),
          { s with
            var_to_defs :=
              assoc_insert s.var_to_defs var
                { occupied with
                  defs := assoc_insert occupied.defs block new_value } })
    | none =>
      -- Variable has been declared but never been assigned before.
      let target := var
      let declared_type? : Option Ty :=
        match rust_binary_search_by s.var_to_type ⟨0, .bool⟩
            (fun decl => compare target decl.offset) with
        | .ok index => some ((s.var_to_type.getD index ⟨0, .bool⟩).ty)
        | .error index =>
          if index = 0 then
            none
          else
            some ((s.var_to_type.getD (index - 1) ⟨0, .bool⟩).ty)
      match declared_type? with
      | none => none
      | some declared_type =>
        match ensure_types_match var new_value declared_type value_to_type with
        | .error e => some (.error e, s)
        | .ok () =>
          some (.ok (),
            { s with
              var_to_defs :=
                assoc_insert s.var_to_defs var
                  (VariableDefs.new declared_type) })

/-- `VariableTranslator::read_var(var)`: returns the per-block definitions
map of the variable (the borrowed `VariableDefinitions` accessor). -/
def VariableTranslator.read_var (s : VariableTranslator) (var : Variable) :
    Except IrError (List (Block × Value)) :=
  match s.ensure_declared var .Read with
  | .error e => .error e
  | .ok () =>
    match List.lookup var s.var_to_defs with
    | some entry => .ok entry.defs
    | none => .error (.FunctionBuilder (.ReadBeforeWriteVariable var))

/-- `VariableDefinitions::for_block(block)`. -/
def VariableDefinitions.for_block (defs : List (Block × Value))
    (block : Block) : Option Value :=
  List.lookup block defs

/-- C3: evaluating the variable translator at the failing input.  After
`declare_vars(2, i32)`, the very first `write_var(var 0, value 0, block 0)`
succeeds, yet the definitions map recorded for `var 0` is empty: the
subsequent `read_var(var 0)` yields an accessor whose `for_block(block 0)`
is `none` instead of the written value `some 0` — the `Vacant` arm of
`write_var` never records `defs[var][block] = value`. -/
theorem claim_C3_first_write_not_recorded :
    (VariableTranslator.mk 0 [] []).declare_vars 2 (Ty.int .i32) =
      (Except.ok (),
        VariableTranslator.mk 2 [⟨0, Ty.int .i32⟩] []) ∧
    (VariableTranslator.mk 2 [⟨0, Ty.int .i32⟩] []).write_var 0 0 0
        (fun _ => Ty.int .i32) =
      some (Except.ok (),
        VariableTranslator.mk 2 [⟨0, Ty.int .i32⟩]
          [(0, VariableDefs.mk [] (Ty.int .i32))]) ∧
    (VariableTranslator.mk 2 [⟨0, Ty.int .i32⟩]
        [(0, VariableDefs.mk [] (Ty.int .i32))]).read_var 0 =
      Except.ok [] ∧
    VariableDefinitions.for_block [] 0 ≠ some 0 := by
  exact ⟨rfl, rfl, rfl, by decide⟩

/-- C4: evaluating the variable translator at the failing input.  After a
single-variable declaration `declare_vars(1, i32)` and no write at all,
`read_var(var 0)` succeeds with an empty definitions accessor instead of
returning the `ReadBeforeWriteVariable` error: `declare_vars` pre-inserts
an empty definitions entry whenever `amount == 1`. -/
theorem claim_C4_read_before_write_not_detected :
    (VariableTranslator.mk 0 [] []).declare_vars 1 (Ty.int .i32) =
      (Except.ok (),
        VariableTranslator.mk 1 [⟨0, Ty.int .i32⟩]
          [(0, VariableDefs.mk [] (Ty.int .i32))]) ∧
    (VariableTranslator.mk 1 [⟨0, Ty.int .i32⟩]
        [(0, VariableDefs.mk [] (Ty.int .i32))]).read_var 0 =
      Except.ok [] ∧
    (Except.ok [] : Except IrError (List (Block × Value))) ≠
      Except.error (.FunctionBuilder (.ReadBeforeWriteVariable 0)) := by
  exact ⟨rfl, rfl, fun h => Except.noConfusion h⟩

/-- C6: evaluating `declare_vars` at the failing input.  Declaring
`2^31 + 1` variables — a running total exceeding `2^31 - 1` — succeeds,
because the code only rejects a total that reaches `u32::MAX = 2^32 - 1`
(at which point the total has already been bumped): the declared bound of
the claim is not the bound the code enforces. -/
theorem claim_C6_declaration_bound :
    ((VariableTranslator.mk 0 [] []).declare_vars (2 ^ 31 + 1)
        (Ty.int .i32)).1 = Except.ok () ∧
    ((VariableTranslator.mk 0 [] []).declare_vars (2 ^ 31 + 1)
        (Ty.int .i32)).2.len_vars = 2 ^ 31 + 1 ∧
    2 ^ 31 + 1 > 2 ^ 31 - 1 ∧
    ((VariableTranslator.mk 0 [] []).declare_vars (2 ^ 32 - 1)
        (Ty.int .i32)).1 =
      Except.error (.FunctionBuilder .TooManyVariableDeclarations) := by
  refine ⟨rfl, rfl, by norm_num, rfl⟩

/-!
## The instruction model

From `src/src/ir/instruction/mod.rs`, `src/crates/ir/src/instruction/int/binary.rs`
and the terminal instruction shapes — only the shapes the claims exercise.
-/

/-- `BinaryIntOp`: binary integer operand codes. -/
inductive BinaryIntOp
  | Add
  | Sub
  | Mul
  | Sdiv
  | Udiv
  | Srem
  | Urem
  | And
  | Or
  | Xor
  deriving DecidableEq, Repr

/-- `CompareIntOp`: integer comparison operand codes. -/
inductive CompareIntOp
  | Eq
  | Ne
  | Slt
  | Sle
  | Sgt
  | Sge
  | Ult
  | Ule
  | Ugt
  | Uge
  deriving DecidableEq, Repr

/-- `BinaryIntInstr`. -/
structure BinaryIntInstr where
  op : BinaryIntOp
  ty : IntType
  lhs : Value
  rhs : Value
  deriving DecidableEq, Repr

/-- `CompareIntInstr`. -/
structure CompareIntInstr where
  op : CompareIntOp
  ty : IntType
  lhs : Value
  rhs : Value
  deriving DecidableEq, Repr

/-- `IntInstr` (the variants the claims exercise). -/
inductive IntInstr
  | Binary (instr : BinaryIntInstr)
  | Compare (instr : CompareIntInstr)
  deriving DecidableEq, Repr

/-- `TerminalInstr` (the variants the claims exercise). -/
inductive TerminalInstr
  | Trap
  | Return (return_value : Value)
  | Br (target : Block)
  | Ite (condition : Value) (then_target : Block) (else_target : Block)
  deriving DecidableEq, Repr

/-- `Instruction` (the variants the claims exercise). -/
inductive Instruction
  | Terminal (instr : TerminalInstr)
  | Int (instr : IntInstr)
  deriving DecidableEq, Repr

/-- `Instruction::is_terminal`. -/
def Instruction.is_terminal : Instruction → Bool
  | .Terminal _ => true
  | _ => false

/-!
## The function instruction builder

From `src/src/ir/builder/instruction.rs`.  The builder context owns the
instruction and value arenas and the per-block secondary maps; arenas are
embedded as a list (instruction data) or a plain allocation counter
(values, whose arena stores `Default::default()` unit entries), secondary
maps as functions into `Option`, the per-block flag vectors as functions
into `Bool`, and the per-block predecessor `HashSet` as a duplicate-free
list.
-/

/-- `ValueAssoc`: what an SSA value is associated with. -/
inductive ValueAssoc
  | Input (idx : Nat)
  | Instr (instr : Instr)
  deriving DecidableEq, Repr

/-- Point update of a map embedded as a function. -/
def update_fn {β : Type} (f : Nat → β) (k : Nat) (v : β) : Nat → β :=
  fun x => if x = k then v else f x

/-- The state of `FunctionBuilder` reachable from
`FunctionInstrBuilder` (`self.builder.ctx` plus the current block). -/
structure FunctionBuilderCtx where
  instrs : List Instruction
  len_values : Nat
  block_instrs : Block → List Instr
  instr_value : Instr → Option Value
  value_type : Value → Option Ty
  value_assoc : Value → Option ValueAssoc
  block_filled : Block → Bool
  block_sealed : Block → Bool
  block_preds : Block → List Block
  current : Block

/-- Modelled from the spec: `FunctionBuilder::current_block` (its defining
module under `src/src/ir/builder/function/` is not among the sources).
Spec §4.4.1 requires the current block to be unfilled for any operation
that extends the body, and §7 lists `BlockAlreadyFilled` as "append
attempted after terminal". -/
def FunctionBuilderCtx.current_block (s : FunctionBuilderCtx) :
    Except IrError Block :=
  if s.block_filled s.current then
    .error (.FunctionBuilder (.BlockAlreadyFilled s.current))
  else
    .ok s.current

/-- `FunctionInstrBuilder::append_value_instr(instruction, ty)`: allocates
the instruction and a fresh value, pushes the instruction into the current
block's body and registers `instr_value`, `value_type` and `value_assoc`. -/
def FunctionInstrBuilder.append_value_instr (s : FunctionBuilderCtx)
    (instruction : Instruction) (ty : Ty) :
    Except IrError Value × FunctionBuilderCtx :=
  match s.current_block with
  | .error e => (.error e, s)
  | .ok block =>
    let instr := s.instrs.length
    let value := s.len_values
    (.ok value,
      { s with
        instrs := s.instrs ++ [instruction]
        len_values := s.len_values + 1
        block_instrs :=
          update_fn s.block_instrs block (s.block_instrs block ++ [instr])
        instr_value := update_fn s.instr_value instr (some value)
        value_type := update_fn s.value_type value (some ty)
        value_assoc :=
          update_fn s.value_assoc value (some (.Instr instr)) })

/-- `FunctionInstrBuilder::icmp(ty, op, lhs, rhs)`: the Rust source passes
`ty.into()` — that is `Type::Int(ty)` — as the result type registered for
the fresh value. -/
def FunctionInstrBuilder.icmp (s : FunctionBuilderCtx) (ty : IntType)
    (op : CompareIntOp) (lhs rhs : Value) :
    Except IrError Value × FunctionBuilderCtx :=
  let instruction := Instruction.Int (.Compare ⟨op, ty, lhs, rhs⟩)
  FunctionInstrBuilder.append_value_instr s instruction (Ty.int ty)

/-- `FunctionInstrBuilder::append_instr(instruction)`: allocates and pushes
the instruction; if it is terminal, marks the current block filled. -/
def FunctionInstrBuilder.append_instr (s : FunctionBuilderCtx)
    (instruction : Instruction) : Except IrError Instr × FunctionBuilderCtx :=
  match s.current_block with
  | .error e => (.error e, s)
  | .ok block =>
    let is_terminal := instruction.is_terminal
    let instr := s.instrs.length
    let s1 : FunctionBuilderCtx :=
      { s with
        instrs := s.instrs ++ [instruction]
        block_instrs :=
          update_fn s.block_instrs block (s.block_instrs block ++ [instr]) }
    let s2 : FunctionBuilderCtx :=
      if is_terminal then
        { s1 with block_filled := update_fn s1.block_filled block true }
      else
        s1
    (.ok instr, s2)

/-- `FunctionInstrBuilder::add_predecessor(block, new_pred)`: requires the
new predecessor filled and the block unsealed, then inserts into the
predecessor set (`HashSet::insert` returning `false` means the branch
already exists). -/
def FunctionInstrBuilder.add_predecessor (s : FunctionBuilderCtx)
    (block new_pred : Block) : Except IrError Unit × FunctionBuilderCtx :=
  if ¬ s.block_filled new_pred then
    (.error (.FunctionBuilder (.UnfilledPredecessor block new_pred)), s)
  else if s.block_sealed block then
    (.error (.FunctionBuilder (.PredecessorForSealedBlock block new_pred)), s)
  else if new_pred ∈ s.block_preds block then
    (.error (.FunctionBuilder (.BranchAlreadyExists new_pred block)), s)
  else
    (.ok (),
      { s with
        block_preds :=
          update_fn s.block_preds block (new_pred :: s.block_preds block) })

/-- `FunctionInstrBuilder::br(target)`: appends the branch terminal to the
current block, then registers the current block as predecessor of the
target.  The mutations of `append_instr` stay in place when
`add_predecessor` fails, as in the Rust `?` operator on `&mut self`. -/
def FunctionInstrBuilder.br (s : FunctionBuilderCtx) (target : Block) :
    Except IrError Instr × FunctionBuilderCtx :=
  match s.current_block with
  | .error e => (.error e, s)
  | .ok block =>
    match FunctionInstrBuilder.append_instr s (.Terminal (.Br target)) with
    | (.error e, s1) => (.error e, s1)
    | (.ok instr, s1) =>
      match FunctionInstrBuilder.add_predecessor s1 target block with
      | (.error e, s2) => (.error e, s2)
      | (.ok (), s2) => (.ok instr, s2)

/-- `FunctionInstrBuilder::if_then_else(condition, then_target, else_target)`. -/
def FunctionInstrBuilder.if_then_else (s : FunctionBuilderCtx)
    (condition : Value) (then_target else_target : Block) :
    Except IrError Instr × FunctionBuilderCtx :=
  match s.current_block with
  | .error e => (.error e, s)
  | .ok block =>
    match FunctionInstrBuilder.append_instr s
        (.Terminal (.Ite condition then_target else_target)) with
    | (.error e, s1) => (.error e, s1)
    | (.ok instr, s1) =>
      match FunctionInstrBuilder.add_predecessor s1 then_target block with
      | (.error e, s2) => (.error e, s2)
      | (.ok (), s2) =>
        match FunctionInstrBuilder.add_predecessor s2 else_target block with
        | (.error e, s3) => (.error e, s3)
        | (.ok (), s3) => (.ok instr, s3)

theorem current_block_ok (s : FunctionBuilderCtx) (b : Block)
    (h : s.current_block = Except.ok b) :
    s.current = b ∧ s.block_filled s.current = false := by
  unfold FunctionBuilderCtx.current_block at h
  by_cases hf : s.block_filled s.current = true
  · simp [hf] at h
  · simp [hf] at h
    simp only [Bool.not_eq_true] at hf
    exact ⟨h, hf⟩

/-- Unfolding of `FunctionInstrBuilder::br` from an unfilled current block:
the terminal is appended and the block marked filled first; the predecessor
registration then decides the result, leaving those mutations in place on
error. -/
theorem br_eq (s : FunctionBuilderCtx) (b target : Block)
    (h : s.current_block = Except.ok b) :
    FunctionInstrBuilder.br s target =
      (let s1 : FunctionBuilderCtx :=
        { s with
          instrs := s.instrs ++ [.Terminal (.Br target)]
          block_instrs :=
            update_fn s.block_instrs b (s.block_instrs b ++ [s.instrs.length])
          block_filled := update_fn s.block_filled b true }
      if s.block_sealed target then
        (Except.error
          (.FunctionBuilder (.PredecessorForSealedBlock target b)), s1)
      else if b ∈ s.block_preds target then
        (Except.error (.FunctionBuilder (.BranchAlreadyExists b target)), s1)
      else
        (Except.ok s.instrs.length,
          { s1 with
            block_preds :=
              update_fn s.block_preds target (b :: s.block_preds target) })) := by
  obtain ⟨hb, hf⟩ := current_block_ok s b h
  subst hb
  simp only [FunctionInstrBuilder.br, FunctionInstrBuilder.append_instr, h,
    Instruction.is_terminal, if_true, FunctionInstrBuilder.add_predecessor,
    update_fn]
  rw [if_neg (show ¬¬True from not_not_intro trivial)]
  split_ifs <;> rfl

/-- Unfolding of `FunctionInstrBuilder::if_then_else` when the registration
of the then-target fails (sealed target, or existing branch): the appended
terminal and the filled flag stay. -/
theorem ite_then_fail_eq (s : FunctionBuilderCtx) (b : Block)
    (condition : Value) (then_t else_t : Block)
    (h : s.current_block = Except.ok b)
    (hfail : s.block_sealed then_t = true ∨ b ∈ s.block_preds then_t) :
    ∃ e : IrError,
      FunctionInstrBuilder.if_then_else s condition then_t else_t =
        (Except.error e,
          { s with
            instrs := s.instrs ++ [.Terminal (.Ite condition then_t else_t)]
            block_instrs :=
              update_fn s.block_instrs b (s.block_instrs b ++ [s.instrs.length])
            block_filled := update_fn s.block_filled b true }) := by
  obtain ⟨hb, hf⟩ := current_block_ok s b h
  subst hb
  simp only [FunctionInstrBuilder.if_then_else, FunctionInstrBuilder.append_instr,
    h, Instruction.is_terminal, if_true, FunctionInstrBuilder.add_predecessor,
    update_fn]
  rw [if_neg (show ¬¬True from not_not_intro trivial)]
  rcases hfail with hsealed | hmem
  · rw [if_pos hsealed]
    exact ⟨_, rfl⟩
  · by_cases hsealed : s.block_sealed then_t = true
    · rw [if_pos hsealed]
      exact ⟨_, rfl⟩
    · rw [if_neg hsealed, if_pos hmem]
      exact ⟨_, rfl⟩

/-- A builder body state with two `i32` input values, whose current block
`bb0` is unfilled and unsealed. -/
def icmpCtx : FunctionBuilderCtx where
  instrs := []
  len_values := 2
  block_instrs := fun _ => []
  instr_value := fun _ => none
  value_type := fun v => if v < 2 then some (Ty.int .i32) else none
  value_assoc := fun v => if v < 2 then some (.Input v) else none
  block_filled := fun _ => false
  block_sealed := fun _ => false
  block_preds := fun _ => []
  current := 0

/-- C1: evaluating the builder at the failing input.  In a body state with
two `i32` values `v0` and `v1`, `icmp(I32, Eq, v0, v1)` succeeds with the
fresh result value `v2`, but the type registered for `v2` in `value_type`
is `Int(I32)` — the operand type, which `icmp` passes to
`append_value_instr` via `ty.into()` — and not `Bool`. -/
theorem claim_C1_icmp_result_type_not_bool :
    (FunctionInstrBuilder.icmp icmpCtx .i32 .Eq 0 1).1 = Except.ok 2 ∧
    (FunctionInstrBuilder.icmp icmpCtx .i32 .Eq 0 1).2.value_type 2 =
      some (Ty.int .i32) ∧
    Ty.int .i32 ≠ Ty.bool := by
  refine ⟨rfl, rfl, by decide⟩

/-- A builder state whose current block `bb0` is unfilled and unsealed,
and where block `bb1` is already sealed while `bb2` is not. -/
def brCtx : FunctionBuilderCtx where
  instrs := []
  len_values := 0
  block_instrs := fun _ => []
  instr_value := fun _ => none
  value_type := fun _ => none
  value_assoc := fun _ => none
  block_filled := fun _ => false
  block_sealed := fun b => b == 1
  block_preds := fun _ => []
  current := 0

/-- C5 counterexample: in the state `brCtx` (current block `bb0` unfilled,
`bb1` sealed), `br(bb1)` fails with `PredecessorForSealedBlock`, yet the
builder state after the failed call has the new terminal instruction in
`bb0`'s body and `bb0`'s filled flag set — not the state from before the
call. -/
theorem claim_C5_counterexample_partial_state :
    (FunctionInstrBuilder.br brCtx 1).1 =
      Except.error (.FunctionBuilder (.PredecessorForSealedBlock 1 0)) ∧
    (FunctionInstrBuilder.br brCtx 1).2.block_instrs 0 = [0] ∧
    brCtx.block_instrs 0 = [] ∧
    (FunctionInstrBuilder.br brCtx 1).2.block_filled 0 = true ∧
    brCtx.block_filled 0 = false := by
  refine ⟨rfl, rfl, rfl, rfl, rfl⟩

/-- C5 (amended): a builder operation that fails still returns the
structured error, but the state is not always rolled back: appending a
branch terminal (`br`, or `if_then_else` with a failing then-target
registration) whose predecessor registration fails — because the target is
already sealed or the branch already exists — leaves the new terminal
instruction in the current block's body and the current block's filled
flag set. -/
theorem claim_C5_amended_failed_branch_keeps_terminal
    (s : FunctionBuilderCtx) (b target : Block)
    (h : s.current_block = Except.ok b)
    (hfail : s.block_sealed target = true ∨ b ∈ s.block_preds target) :
    (∃ e : IrError,
      (FunctionInstrBuilder.br s target).1 = Except.error e ∧
      (FunctionInstrBuilder.br s target).2.block_instrs b =
        s.block_instrs b ++ [s.instrs.length] ∧
      (FunctionInstrBuilder.br s target).2.block_filled b = true) ∧
    (∀ condition : Value, ∀ else_t : Block,
      ∃ e : IrError,
        (FunctionInstrBuilder.if_then_else s condition target else_t).1 =
          Except.error e ∧
        (FunctionInstrBuilder.if_then_else s condition target else_t).2.block_instrs b =
          s.block_instrs b ++ [s.instrs.length] ∧
        (FunctionInstrBuilder.if_then_else s condition target else_t).2.block_filled b =
          true) := by
  constructor
  · rw [br_eq s b target h]
    rcases hfail with hsealed | hmem
    · rw [if_pos hsealed]
      exact ⟨_, rfl, by simp [update_fn], by simp [update_fn]⟩
    · by_cases hsealed : s.block_sealed target = true
      · rw [if_pos hsealed]
        exact ⟨_, rfl, by simp [update_fn], by simp [update_fn]⟩
      · rw [if_neg hsealed, if_pos hmem]
        exact ⟨_, rfl, by simp [update_fn], by simp [update_fn]⟩
  · intro condition else_t
    obtain ⟨e, he⟩ := ite_then_fail_eq s b condition target else_t h hfail
    exact ⟨e, by rw [he], by rw [he]; simp [update_fn], by rw [he]; simp [update_fn]⟩

/-- C5 amended, witness at the concrete state `brCtx` with sealed target
`bb1`. -/
theorem claim_C5_amended_witness :
    ∃ e : IrError,
      (FunctionInstrBuilder.br brCtx 1).1 = Except.error e ∧
      (FunctionInstrBuilder.br brCtx 1).2.block_instrs 0 =
        brCtx.block_instrs 0 ++ [brCtx.instrs.length] ∧
      (FunctionInstrBuilder.br brCtx 1).2.block_filled 0 = true :=
  (claim_C5_amended_failed_branch_keeps_terminal brCtx 0 1 rfl
    (Or.inl rfl)).1

/-- C8: a terminal branch `br(target)` appended from the current block `b`
fails with `PredecessorForSealedBlock` when the target is already sealed,
fails with `BranchAlreadyExists` when `b` is already a predecessor of the
target, and otherwise inserts `b` into the target's predecessor set; the
appending block is filled by this very append, so the `br` never fails
with `UnfilledPredecessor` — while `add_predecessor` itself reports
`UnfilledPredecessor` whenever the new predecessor is unfilled. -/
theorem claim_C8_branch_predecessor_registration
    (s : FunctionBuilderCtx) (b target : Block)
    (h : s.current_block = Except.ok b) :
    (s.block_sealed target = true →
      (FunctionInstrBuilder.br s target).1 =
        Except.error
          (.FunctionBuilder (.PredecessorForSealedBlock target b))) ∧
    (s.block_sealed target = false → b ∈ s.block_preds target →
      (FunctionInstrBuilder.br s target).1 =
        Except.error (.FunctionBuilder (.BranchAlreadyExists b target))) ∧
    (s.block_sealed target = false → b ∉ s.block_preds target →
      (FunctionInstrBuilder.br s target).1 = Except.ok s.instrs.length ∧
      (FunctionInstrBuilder.br s target).2.block_preds target =
        b :: s.block_preds target ∧
      (FunctionInstrBuilder.br s target).2.block_filled b = true) ∧
    (∀ blk pred : Block,
      (FunctionInstrBuilder.br s target).1 ≠
        Except.error (.FunctionBuilder (.UnfilledPredecessor blk pred))) ∧
    (∀ s' : FunctionBuilderCtx, ∀ blk pred : Block,
      s'.block_filled pred = false →
      (FunctionInstrBuilder.add_predecessor s' blk pred).1 =
        Except.error (.FunctionBuilder (.UnfilledPredecessor blk pred))) := by
  rw [br_eq s b target h]
  refine ⟨?_, ?_, ?_, ?_, ?_⟩
  · intro hsealed
    rw [if_pos hsealed]
  · intro hsealed hmem
    rw [if_neg (by simp [hsealed]), if_pos hmem]
  · intro hsealed hmem
    rw [if_neg (by simp [hsealed]), if_neg hmem]
    exact ⟨rfl, by simp [update_fn], by simp [update_fn]⟩
  · intro blk pred
    split_ifs <;> simp
  · intro s' blk pred hpred
    simp [FunctionInstrBuilder.add_predecessor, hpred]

/-- C8, witness at the concrete state `brCtx`: branching from `bb0` to the
unsealed block `bb2` succeeds and registers the predecessor. -/
theorem claim_C8_witness :
    (FunctionInstrBuilder.br brCtx 2).1 = Except.ok 0 ∧
    (FunctionInstrBuilder.br brCtx 2).2.block_preds 2 = [0] ∧
    (FunctionInstrBuilder.br brCtx 2).2.block_filled 0 = true := by
  have h := (claim_C8_branch_predecessor_registration brCtx 0 2 rfl).2.2.1
    rfl (by decide)
  exact ⟨h.1, h.2.1, h.2.2⟩

/-!
## The binary integer instruction interpreter

From `BinaryIntInstr::interpret_instr` in `src/src/ir/interpreter/instr.rs`
and the `PrimitiveInteger` wrapping helpers.  Registers hold `u64`
patterns; the operands are truncated to the instruction's width (`as u8`
etc.), the generic `compute` helper evaluates the operation on the
`w`-bit unsigned/signed Rust types, and the result is zero-extended back
(`result as u64`).  Rust `wrapping_div`/`wrapping_rem` panic on a zero
divisor ("attempt to divide by zero"); the panic is modelled as `none`.
-/

/-- Rust `as iN` on a `w`-bit pattern: two's-complement reinterpretation. -/
def toSigned (w : Nat) (n : Nat) : Int :=
  if n < 2 ^ (w - 1) then (n : Int) else (n : Int) - 2 ^ w

/-- Rust `as uN` on an integer: the `w`-bit pattern. -/
def wrap (w : Nat) (i : Int) : Nat :=
  (i % (2 ^ w : Int)).toNat

/-- Rust `uN::wrapping_add`. -/
def rust_wrapping_add (w : Nat) (a b : Nat) : Nat :=
  (a + b) % 2 ^ w

/-- Rust `uN::wrapping_sub`. -/
def rust_wrapping_sub (w : Nat) (a b : Nat) : Nat :=
  wrap w ((a : Int) - (b : Int))

/-- Rust `uN::wrapping_mul`. -/
def rust_wrapping_mul (w : Nat) (a b : Nat) : Nat :=
  (a * b) % 2 ^ w

/-- Rust `uN::wrapping_div`: panics on a zero divisor. -/
def rust_wrapping_div_u (a b : Nat) : Option Nat :=
  if b = 0 then none else some (a / b)

/-- Rust `uN::wrapping_rem`: panics on a zero divisor. -/
def rust_wrapping_rem_u (a b : Nat) : Option Nat :=
  if b = 0 then none else some (a % b)

/-- `s2u(u2s(lhs).wrapping_div(u2s(rhs)))`: Rust `iN::wrapping_div` on the
signed reinterpretations, with the result pattern taken back as unsigned.
Rust signed division truncates toward zero (`Int.tdiv`) and panics on a
zero divisor; the sole overflow case `MIN / -1` wraps to `MIN`, which the
final `wrap` reproduces. -/
def rust_wrapping_div_s (w : Nat) (a b : Nat) : Option Nat :=
  if toSigned w b = 0 then none
  else some (wrap w (Int.tdiv (toSigned w a) (toSigned w b)))

/-- `s2u(u2s(lhs).wrapping_rem(u2s(rhs)))`: Rust `iN::wrapping_rem`
(truncated remainder, `Int.tmod`), panicking on a zero divisor. -/
def rust_wrapping_rem_s (w : Nat) (a b : Nat) : Option Nat :=
  if toSigned w b = 0 then none
  else some (wrap w (Int.tmod (toSigned w a) (toSigned w b)))

/-- The generic `compute` helper of `BinaryIntInstr::interpret_instr`,
instantiated at the `w`-bit Rust integer types.  `lhs` and `rhs` are the
already-truncated `w`-bit operand patterns. -/
def compute (op : BinaryIntOp) (w : Nat) (lhs rhs : Nat) : Option Nat :=
  match op with
  | .Add => some (rust_wrapping_add w lhs rhs)
  | .Sub => some (rust_wrapping_sub w lhs rhs)
  | .Mul => some (rust_wrapping_mul w lhs rhs)
  | .Sdiv => rust_wrapping_div_s w lhs rhs
  | .Srem => rust_wrapping_rem_s w lhs rhs
  | .Udiv => rust_wrapping_div_u lhs rhs
  | .Urem => rust_wrapping_rem_u lhs rhs
  | .And => some (lhs &&& rhs)
  | .Or => some (lhs ||| rhs)
  | .Xor => some (lhs ^^^ rhs)

/-- `BinaryIntInstr::interpret_instr`: reads the two `u64` operand
registers (`ctx.read_register`, embedded as the `registers` map),
truncates them to the instruction's width, computes, and returns the
`u64` result that `ctx.write_register` stores for the instruction's
value; `none` models the division-by-zero panic. -/
def BinaryIntInstr.interpret_instr (instr : BinaryIntInstr)
    (registers : Value → Nat) : Option Nat :=
  let w := instr.ty.bit_width
  let lhs := registers instr.lhs % 2 ^ w
  let rhs := registers instr.rhs % 2 ^ w
  compute instr.op w lhs rhs

/-- The four division/remainder operand codes. -/
def is_div_rem : BinaryIntOp → Bool
  | .Sdiv | .Udiv | .Srem | .Urem => true
  | _ => false

theorem toSigned_eq_zero_iff (w : Nat) (b : Nat)
    (hb : b < 2 ^ w) : toSigned w b = 0 ↔ b = 0 := by
  unfold toSigned
  by_cases h : b < 2 ^ (w - 1)
  · simp [h]
  · rw [if_neg h]
    have h1 : 0 < 2 ^ (w - 1) := Nat.pos_pow_of_pos _ (by norm_num)
    have h2 : (b : Int) < 2 ^ w := by exact_mod_cast hb
    constructor
    · intro hzero
      exfalso
      have hbe : (b : Int) = 2 ^ w := by linarith
      rw [hbe] at h2
      exact lt_irrefl _ h2
    · intro hzero
      subst hzero
      exact absurd h1 h

theorem wrap_lt (w : Nat) (i : Int) : wrap w i < 2 ^ w := by
  unfold wrap
  have hpos : (0 : Int) < 2 ^ w := by positivity
  have h1 : 0 ≤ i % 2 ^ w := Int.emod_nonneg i (ne_of_gt hpos)
  have h2 : i % 2 ^ w < 2 ^ w := Int.emod_lt_of_pos i hpos
  have hcast : ((2 ^ w : Nat) : Int) = 2 ^ w := by push_cast; ring
  omega

theorem compute_none_iff (op : BinaryIntOp) (hop : is_div_rem op = true)
    (w : Nat) (l r : Nat) (hr : r < 2 ^ w) :
    compute op w l r = none ↔ r = 0 := by
  cases op
  case Sdiv =>
    simp only [compute, rust_wrapping_div_s]
    rw [← toSigned_eq_zero_iff w r hr]
    by_cases h : toSigned w r = 0 <;> simp [h]
  case Srem =>
    simp only [compute, rust_wrapping_rem_s]
    rw [← toSigned_eq_zero_iff w r hr]
    by_cases h : toSigned w r = 0 <;> simp [h]
  case Udiv =>
    simp only [compute, rust_wrapping_div_u]
    by_cases h : r = 0 <;> simp [h]
  case Urem =>
    simp only [compute, rust_wrapping_rem_u]
    by_cases h : r = 0 <;> simp [h]
  all_goals exact absurd hop (by simp [is_div_rem])

theorem compute_total (op : BinaryIntOp) (hop : is_div_rem op = false)
    (w : Nat) (l r : Nat) (hl : l < 2 ^ w) (hr : r < 2 ^ w) :
    ∃ x, compute op w l r = some x ∧ x < 2 ^ w := by
  have hpos : 0 < 2 ^ w := Nat.pos_pow_of_pos _ (by norm_num)
  cases op
  case Add => exact ⟨_, rfl, Nat.mod_lt _ hpos⟩
  case Sub => exact ⟨_, rfl, wrap_lt w _⟩
  case Mul => exact ⟨_, rfl, Nat.mod_lt _ hpos⟩
  case And =>
    exact ⟨_, rfl, lt_of_le_of_lt Nat.and_le_right hr⟩
  case Or =>
    exact ⟨_, rfl, Nat.or_lt_two_pow hl hr⟩
  case Xor =>
    exact ⟨_, rfl, Nat.xor_lt_two_pow hl hr⟩
  all_goals exact absurd hop (by simp [is_div_rem])

/-- C10: `BinaryIntInstr::interpret_instr` is not total: it panics (Rust
division by zero, modelled as `none`) exactly when the operation is one of
`Sdiv`, `Udiv`, `Srem`, `Urem` and the divisor register holds zero in the
instruction's integer width, for every integer type; every other binary
integer operation — and the division operations with a non-zero divisor —
evaluates to a result inside the width, with wrapping modulo `2^w`
semantics (shown literally for `Add`, `Sub` and `Mul`). -/
theorem claim_C10_binary_int_div_by_zero_panics (instr : BinaryIntInstr)
    (registers : Value → Nat) :
    (is_div_rem instr.op = true →
      (instr.interpret_instr registers = none ↔
        registers instr.rhs % 2 ^ instr.ty.bit_width = 0)) ∧
    (is_div_rem instr.op = false →
      ∃ x, instr.interpret_instr registers = some x ∧
        x < 2 ^ instr.ty.bit_width) ∧
    (is_div_rem instr.op = true →
      registers instr.rhs % 2 ^ instr.ty.bit_width ≠ 0 →
      ∃ x, instr.interpret_instr registers = some x) ∧
    (instr.op = .Add → instr.interpret_instr registers =
      some ((registers instr.lhs + registers instr.rhs) %
        2 ^ instr.ty.bit_width)) ∧
    (instr.op = .Sub → instr.interpret_instr registers =
      some (wrap instr.ty.bit_width
        ((registers instr.lhs : Int) - (registers instr.rhs : Int)))) ∧
    (instr.op = .Mul → instr.interpret_instr registers =
      some ((registers instr.lhs * registers instr.rhs) %
        2 ^ instr.ty.bit_width)) := by
  obtain ⟨op, ty, lv, rv⟩ := instr
  have hpos : 0 < 2 ^ ty.bit_width := Nat.pos_pow_of_pos _ (by norm_num)
  refine ⟨?_, ?_, ?_, ?_, ?_, ?_⟩
  · intro hop
    exact compute_none_iff op hop _ _ _ (Nat.mod_lt _ hpos)
  · intro hop
    exact compute_total op hop _ _ _ (Nat.mod_lt _ hpos) (Nat.mod_lt _ hpos)
  · intro hop hnz
    rcases hx : BinaryIntInstr.interpret_instr ⟨op, ty, lv, rv⟩ registers with _ | x
    · exact absurd ((compute_none_iff op hop _ _ _ (Nat.mod_lt _ hpos)).mp hx)
        hnz
    · exact ⟨x, rfl⟩
  · rintro rfl
    simp only [BinaryIntInstr.interpret_instr, compute, rust_wrapping_add]
    exact congrArg some (Nat.add_mod _ _ _).symm
  · rintro rfl
    simp only [BinaryIntInstr.interpret_instr, compute, rust_wrapping_sub, wrap]
    congr 2
    push_cast
    rw [← Int.sub_emod]
  · rintro rfl
    simp only [BinaryIntInstr.interpret_instr, compute, rust_wrapping_mul]
    exact congrArg some (Nat.mul_mod _ _ _).symm

/-!
## The Wasm operator translator

From `ValueNumbering::push_operator`, `process_binary_instruction` and
`push_instruction` in `src/src/ir/wasm/mod.rs`, restricted to the state
fields and operator arms the claims exercise.  The Wasm instruction
constructors `IaddInstr::new(I32, lhs, rhs)` etc. build the corresponding
`BinaryIntInstr` shapes.
-/

/-- The outcome of a Rust call that may either return a `Result` or
panic. -/
inductive RustOutcome (α : Type)
  | ok (value : α)
  | err (error : IrError)
  | panic (msg : String)
  deriving Repr

/-- The Wasm operators whose `push_operator` arms the claims exercise;
`Unsupported` stands for the `_unsupported` fallthrough arm. -/
inductive Operator
  | I32Add
  | I32Mul
  | I32DivS
  | I32DivU
  | Drop
  | Nop
  | Unsupported
  deriving DecidableEq, Repr

/-- Modelled from the spec: `ValueStack::pop2` (the stack module
`src/src/ir/wasm/stack.rs` is not among the sources).  The spec: the
translator "fails with a structured error on … (b) stack underflow
(`pop` on empty)"; `pop2` pops the two topmost values. -/
def ValueStack.pop2 (stack : List Value) :
    Except WasmError ((Value × Value) × List Value) :=
  match stack with
  | rhs :: lhs :: rest => .ok ((lhs, rhs), rest)
  | _ => .error .StackUnderflow

/-- Modelled from the spec: `ValueStack::pop1`, popping the topmost value
with a stack-underflow error on an empty stack. -/
def ValueStack.pop1 (stack : List Value) :
    Except WasmError (Value × List Value) :=
  match stack with
  | v :: rest => .ok (v, rest)
  | [] => .error .StackUnderflow

/-- The state of `ValueNumbering` reachable from the claim-relevant
operator arms: the value generator, the current basic block, the
value-numbering memo `instr_to_value` and the emulated Wasm value stack. -/
structure ValueNumbering where
  value_gen : Nat
  current_block : Block
  instr_to_value : List ((Block × Instruction) × Value)
  stack : List Value

/-- `ValueNumbering::push_instruction`: the `while` loop pops the single
`todo_blocks` entry — the current block — and checks the memo there (no
predecessor is ever queued); on a miss a fresh value is drawn from the
value generator. -/
def ValueNumbering.push_instruction (s : ValueNumbering)
    (instr : Instruction) : Value × ValueNumbering :=
  match List.lookup (s.current_block, instr) s.instr_to_value with
  | some value => (value, s)
  | none => (s.value_gen, { s with value_gen := s.value_gen + 1 })

/-- `ValueNumbering::process_binary_instruction(resource, f)`: pops two
values (`self.stack.pop2()?`) and feeds them to the constructed
instruction; the stack-underflow error propagates to the caller through
the `?` operator. -/
def ValueNumbering.process_binary_instruction (s : ValueNumbering)
    (f : Value → Value → Instruction) :
    Except IrError Unit × ValueNumbering :=
  match ValueStack.pop2 s.stack with
  | .error e => (.error (.Wasm e), s)
  | .ok ((lhs, rhs), rest) =>
    let (_value, s1) :=
      ValueNumbering.push_instruction { s with stack := rest } (f lhs rhs)
    (.ok (), s1)

/-- `ValueNumbering::push_operator(resource, operator)`: the four binary
`i32` arithmetic arms call
`process_binary_instruction(..).expect("…: missing stack values")`,
turning a returned error into a panic, while `Drop` propagates the
underflow error with `?` and unsupported operators return
`WasmError::UnsupportedOperator`. -/
def ValueNumbering.push_operator (s : ValueNumbering) (operator : Operator) :
    RustOutcome (Unit × ValueNumbering) :=
  match operator with
  | .I32Add =>
    match s.process_binary_instruction
        (fun lhs rhs => .Int (.Binary ⟨.Add, .i32, lhs, rhs⟩)) with
    | (.ok (), s1) => .ok ((), s1)
    | (.error _, _) => .panic "i32.add: missing stack values"
  | .I32Mul =>
    match s.process_binary_instruction
        (fun lhs rhs => .Int (.Binary ⟨.Mul, .i32, lhs, rhs⟩)) with
    | (.ok (), s1) => .ok ((), s1)
    | (.error _, _) => .panic "i32.mul: missing stack values"
  | .I32DivS =>
    match s.process_binary_instruction
        (fun lhs rhs => .Int (.Binary ⟨.Sdiv, .i32, lhs, rhs⟩)) with
    | (.ok (), s1) => .ok ((), s1)
    | (.error _, _) => .panic "i32.divs: missing stack values"
  | .I32DivU =>
    match s.process_binary_instruction
        (fun lhs rhs => .Int (.Binary ⟨.Udiv, .i32, lhs, rhs⟩)) with
    | (.ok (), s1) => .ok ((), s1)
    | (.error _, _) => .panic "i32.divu: missing stack values"
  | .Drop =>
    match ValueStack.pop1 s.stack with
    | .error e => .err (.Wasm e)
    | .ok (_, rest) => .ok ((), { s with stack := rest })
  | .Nop => .ok ((), s)
  | .Unsupported => .err (.Wasm .UnsupportedOperator)

/-- C9: pushing any of the four binary `i32` arithmetic operators while
the emulated value stack holds fewer than two values does not return the
structured stack-underflow error to the caller: `push_operator` calls
`.expect(..)` on the result of `process_binary_instruction`, whose
`Err(StackUnderflow)` therefore becomes a panic. -/
theorem claim_C9_binary_ops_panic_on_underflow (s : ValueNumbering)
    (hstack : s.stack.length < 2) :
    s.push_operator .I32Add = .panic "i32.add: missing stack values" ∧
    s.push_operator .I32Mul = .panic "i32.mul: missing stack values" ∧
    s.push_operator .I32DivS = .panic "i32.divs: missing stack values" ∧
    s.push_operator .I32DivU = .panic "i32.divu: missing stack values" ∧
    (s.process_binary_instruction
        (fun lhs rhs => .Int (.Binary ⟨.Add, .i32, lhs, rhs⟩))).1 =
      Except.error (.Wasm .StackUnderflow) := by
  have hpop : ValueStack.pop2 s.stack = .error .StackUnderflow := by
    rcases hs : s.stack with _ | ⟨a, _ | ⟨b, rest⟩⟩
    · rfl
    · rfl
    · rw [hs] at hstack
      simp only [List.length_cons] at hstack
      omega
  refine ⟨?_, ?_, ?_, ?_, ?_⟩ <;>
    simp [ValueNumbering.push_operator,
      ValueNumbering.process_binary_instruction, hpop]

/-- C9, witness at an empty value stack. -/
theorem claim_C9_binary_ops_panic_witness :
    (ValueNumbering.mk 0 0 [] []).push_operator .I32Add =
      .panic "i32.add: missing stack values" ∧
    (ValueNumbering.mk 0 0 [] []).push_operator .I32Mul =
      .panic "i32.mul: missing stack values" ∧
    (ValueNumbering.mk 0 0 [] []).push_operator .I32DivS =
      .panic "i32.divs: missing stack values" ∧
    (ValueNumbering.mk 0 0 [] []).push_operator .I32DivU =
      .panic "i32.divu: missing stack values" ∧
    ((ValueNumbering.mk 0 0 [] []).process_binary_instruction
        (fun lhs rhs => .Int (.Binary ⟨.Add, .i32, lhs, rhs⟩))).1 =
      Except.error (.Wasm .StackUnderflow) :=
  claim_C9_binary_ops_panic_on_underflow (ValueNumbering.mk 0 0 [] [])
    (by decide)

end Runwell
